import Mathlib

/-!
Shallow embedding of the CloudKidFramework asset-loading pipeline.

The embedding follows the JavaScript sources:
* `AssetLoad` (batch coordinator): `setup`, `addTasks`, `addTask`,
  `getTaskByAsset`, `nextTask`, `taskDone`, `start`.
* `AssetSizes` (size resolver): `define`, `refresh`, `size`, `filter`.
* `Loader` (dispatcher): `cancel`, `_putItem`, `_getItem`.

JavaScript values that the batch coordinator inspects dynamically are
modelled by the inductive `JsVal`; plain objects are insertion-ordered
association lists of properties.  Property writes on non-object values
(JavaScript silently ignores them on primitives; on arrays they would
add a named property that this model drops) are modelled as no-ops.
Machine floats for progress fractions are modelled by `ℚ` (all
arithmetic involved is exact small-integer division).
-/

namespace CKF

/-- A JavaScript value as far as the asset pipeline inspects it:
strings, numbers, booleans, (opaque) functions, arrays and plain
objects given by their insertion-ordered own properties. -/
inductive JsVal where
  | str : String → JsVal
  | num : Int → JsVal
  | boolean : Bool → JsVal
  | fn : Nat → JsVal
  | arr : List JsVal → JsVal
  | obj : List (String × JsVal) → JsVal

/-- Property read `v[k]`; `none` models `undefined`.  Non-objects have
no readable named properties in this model. -/
def getProp : JsVal → String → Option JsVal
  | .obj l, k => l.lookup k
  | _, _ => none

/-- Replace the value at a key in an object's property list, or append
the key if absent (JavaScript assignment semantics). -/
def setEntry : List (String × JsVal) → String → JsVal → List (String × JsVal)
  | [], k, v => [(k, v)]
  | (k', v') :: rest, k, v =>
      if k' = k then (k, v) :: rest else (k', v') :: setEntry rest k v

/-- Property write `v[k] = x`.  Writes on non-objects are dropped. -/
def setProp : JsVal → String → JsVal → JsVal
  | .obj l, k, v => .obj (setEntry l k v)
  | other, _, _ => other

/-- Remove a key from a property list (JavaScript `delete`). -/
def delEntry : List (String × JsVal) → String → List (String × JsVal)
  | [], _ => []
  | (k', v') :: rest, k =>
      if k' = k then rest else (k', v') :: delEntry rest k

/-- `delete v[k]`; deletes on non-objects are dropped. -/
def delProp : JsVal → String → JsVal
  | .obj l, k => .obj (delEntry l k)
  | other, _ => other

/-- JavaScript truthiness of a value. -/
def truthy : JsVal → Bool
  | .str s => !s.isEmpty
  | .num n => n != 0
  | .boolean b => b
  | .fn _ => true
  | .arr _ => true
  | .obj _ => true

/-- Truthiness of a possibly-`undefined` value. -/
def otruthy : Option JsVal → Bool
  | some v => truthy v
  | none => false

/-- `Object.isPlain` as used by `AssetLoad.addTasks`. -/
def isPlain : JsVal → Bool
  | .obj _ => true
  | _ => false

/-- The lifecycle states of a task (`Task.WAITING/RUNNING/FINISHED`). -/
inductive TaskStatus where
  | waiting | running | finished
deriving DecidableEq, Repr

/-- A registered task variant: `getTaskByAsset` only ever consults its
static `test(asset)` predicate. -/
structure TaskDef where
  test : JsVal → Bool

/-- `LoadTask.test` from the sources: `!!asset.src`. -/
def loadTaskDef : TaskDef := ⟨fun a => otruthy (getProp a "src")⟩

/-- The task id as the batch coordinator uses it: `task.id` is truthy
exactly when the descriptor carried a non-empty string id. -/
def taskIdOfAsset (a : JsVal) : Option String :=
  match getProp a "id" with
  | some (.str s) => if s.isEmpty then none else some s
  | _ => none

/-- Modelled from the spec: `tasks/Task.js` is not among the sources.
Per the spec a Task is a stateful wrapper bound to one descriptor with
lifecycle `WAITING → RUNNING → FINISHED`, an optional id (the
aggregation key in map mode), an optional cache flag, and a reference
to the original descriptor. -/
structure Task where
  id : Option String
  cache : Bool
  status : TaskStatus
  original : JsVal

/-- Modelled from the spec: construction of a Task from an (already
defaulted) descriptor — the id and cache flag are taken from the
descriptor, the task starts `WAITING`. -/
def mkTask (a : JsVal) : Task :=
  { id := taskIdOfAsset a
    cache := otruthy (getProp a "cache")
    status := .waiting
    original := a }

/-- The three result-shape modes (`SINGLE_MODE`/`MAP_MODE`/`LIST_MODE`). -/
inductive Mode where
  | single | map | list
deriving DecidableEq, Repr

/-- The batch result container: `null`, a single value, an array or a
keyed object (`AssetLoad.results`). -/
inductive Res where
  | nil : Res
  | val : JsVal → Res
  | arr : List JsVal → Res
  | obj : List (String × JsVal) → Res

/-- An uncaught JavaScript runtime error. -/
inductive JsError where
  | typeError
deriving DecidableEq, Repr

/-- Observable actions of one batch, in emission order: the `progress`,
`taskDone` and `complete` triggers plus calls to the external cache
collaborator's `write`. -/
inductive Ev where
  | progress : ℚ → Ev
  | cacheWrite : Option String → JsVal → Ev
  | taskDoneEv : Option JsVal → JsVal → List JsVal → Ev
  | complete : Res → Ev

/-- The state of one `AssetLoad` batch, together with the manager's
registered task definitions (`manager.taskDefs`), which the batch only
reads. -/
structure AState where
  defs : List TaskDef
  tasks : List Task
  results : Res
  mode : Mode
  startAll : Bool
  cacheAll : Bool
  typeD : Option String
  running : Bool
  numLoaded : Nat
  total : Nat

/-- A fresh batch as built by the `AssetLoad` constructor (mode
defaults to map, no tasks, `results = null`, not running). -/
def mkState (defs : List TaskDef) : AState :=
  { defs := defs
    tasks := []
    results := .nil
    mode := .map
    startAll := true
    cacheAll := false
    typeD := none
    running := false
    numLoaded := 0
    total := 0 }

/-- `AssetLoad.getTaskByAsset`: scan `taskDefs` front to back and
return the first definition whose `test` accepts the asset. -/
def getTaskByAsset (taskDefs : List TaskDef) (a : JsVal) : Option TaskDef :=
  taskDefs.find? fun d => d.test a

/-- Modelled from the spec: `AssetManager.register` is not among the
sources.  The spec requires that later registrations take match
priority; since `getTaskByAsset` scans `taskDefs` front to back,
registration prepends the new task definition. -/
def register (taskDefs : List TaskDef) (d : TaskDef) : List TaskDef :=
  d :: taskDefs

/-- Registering a sequence of task definitions in order. -/
def registerAll (ds : List TaskDef) : List TaskDef :=
  ds.foldl register []

/-- `AssetLoad._applyDefaults`: a bare string becomes `{src}`, a bare
function becomes `{async}`, anything else passes through. -/
def applyDefaults : JsVal → JsVal
  | .str s => .obj [("src", .str s)]
  | .fn n => .obj [("async", .fn n)]
  | v => v

/-- The truthiness test JavaScript applies to the batch's default type
(`this.type`): present and non-empty. -/
def typeTruthy : Option String → Bool
  | some t => !t.isEmpty
  | none => false

/-- `asset.type === undefined && this.type` followed by
`asset.type = this.type`. -/
def applyTypeDef (typeD : Option String) (a : JsVal) : JsVal :=
  match typeD with
  | some t =>
      if (getProp a "type").isNone ∧ t ≠ "" then setProp a "type" (.str t) else a
  | none => a

/-- `assets.type === this.type && this.type` followed by
`delete assets.type` (undoing the temporary default). -/
def stripTypeDef (typeD : Option String) (a : JsVal) : JsVal :=
  match typeD, getProp a "type" with
  | some t, some (.str t') =>
      if t' = t ∧ t ≠ "" then delProp a "type" else a
  | _, _ => a

/-- `AssetLoad.addTask`: apply the type and cache defaults, resolve a
task definition; on a match construct the task, append it to the
pending list and bump `total`; otherwise log and return `undefined`
(modelled as `none`). -/
def addTask (s : AState) (a0 : JsVal) : AState × Option Task :=
  let a1 := applyTypeDef s.typeD a0
  match getTaskByAsset s.defs a1 with
  | some _ =>
      let a2 :=
        if (getProp a1 "cache").isNone ∧ s.cacheAll then
          setProp a1 "cache" (.boolean true)
        else a1
      let t := mkTask a2
      ({ s with tasks := s.tasks ++ [t], total := s.total + 1 }, some t)
  | none => (s, none)

/-- Rewrite the id of the most recently appended task (the object
branch of `addTasks` does `task.id = id` on the task it just added). -/
def modifyLast (f : Task → Task) : List Task → List Task
  | [] => []
  | [t] => [f t]
  | t :: rest => t :: modifyLast f rest

/-- The array branch of `AssetLoad.addTasks`: each member is defaulted
and added; a member whose task lacks an id demotes the mode to list.
A member that matches no task definition makes `addTask` return
`undefined`, and the subsequent `task.id` read raises a `TypeError`. -/
def addArr : AState → List JsVal → Mode → AState × Mode × Option JsError
  | s, [], m => (s, m, none)
  | s, x :: rest, m =>
      let a := applyDefaults x
      match addTask s a with
      | (s', some t) => addArr s' rest (if t.id = none then Mode.list else m)
      | (s', none) => (s', m, some .typeError)

/-- The plain-object branch of `AssetLoad.addTasks`: each value is
defaulted and added; a task without an id receives the object key as
its id.  As in the array branch, an unmatched member raises a
`TypeError` at the `task.id` read. -/
def addObj : AState → List (String × JsVal) → AState × Mode × Option JsError
  | s, [] => (s, Mode.map, none)
  | s, (k, v) :: rest =>
      match addTask s (applyDefaults v) with
      | (s', some t) =>
          if t.id = none then
            addObj { s' with tasks := modifyLast (fun u => { u with id := some k }) s'.tasks }
              rest
          else addObj s' rest
      | (s', none) => (s', Mode.map, some .typeError)

/-- `AssetLoad.addTasks`: default the whole collection, try it as a
single descriptor first, otherwise branch on array / plain object /
unsupported; returns the resulting aggregate mode and a possible
uncaught error, alongside the partially mutated state. -/
def addTasks (s0 : AState) (assets0 : JsVal) : AState × Mode × Option JsError :=
  let assets1 := applyDefaults assets0
  let assets2 := applyTypeDef s0.typeD assets1
  match getTaskByAsset s0.defs assets2 with
  | some _ =>
      let (s1, _) := addTask s0 assets2
      (s1, Mode.single, none)
  | none =>
      let assets3 := stripTypeDef s0.typeD assets2
      match assets3 with
      | .arr l => addArr s0 l Mode.map
      | .obj entries => addObj s0 entries
      | _ => (s0, Mode.map, none)

/-- `AssetLoad.nextTask`'s loop over the pending list: transition
`WAITING` tasks to `RUNNING` and start them — all of them when
`startAll` (parallel), only the first one otherwise (serial). -/
def dispatch : Bool → List Task → List Task
  | _, [] => []
  | startAll, t :: rest =>
      if t.status = .waiting then
        let t' := { t with status := .running }
        if startAll then t' :: dispatch startAll rest else t' :: rest
      else t :: dispatch startAll rest

/-- `AssetLoad.nextTask`. -/
def nextTask (s : AState) : AState :=
  { s with tasks := dispatch s.startAll s.tasks }

/-- `AssetLoad._getAssetsContainer`. -/
def containerFor : Mode → Res
  | .single => .nil
  | .list => .arr []
  | .map => .obj []

/-- The key under which a map-mode result is stored: JavaScript
stringifies a `null` id to the property key `"null"`. -/
def keyOf : Option String → String
  | some s => s
  | none => "null"

/-- The fold of one result into the batch container
(`switch (this.mode)` in `taskDone`): single replaces, list appends,
map assigns at the task id.  Combinations that cannot arise when the
container matches the mode leave the container unchanged. -/
def foldRes : Mode → Res → Option String → JsVal → Res
  | .single, _, _, r => .val r
  | .list, .arr l, _, r => .arr (l ++ [r])
  | .map, .obj es, id?, r => .obj (setEntry es (keyOf id?) r)
  | _, res, _, _ => res

/-- The outcome of one `taskDone` invocation: the new state, the
emitted events in order, whether the map-shape violation fired
(`Debug.error`+return in debug, `throw` in release), and a possible
uncaught `TypeError` from recursive admission. -/
structure StepOut where
  state : AState
  events : List Ev
  fatal : Bool
  crash : Option JsError

/-- The defaulting `result = result || null` at the head of
`taskDone`: a falsy result is replaced by `null` (`none`). -/
def filterResult : Option JsVal → Option JsVal
  | some r => if truthy r then some r else none
  | none => none

/-- `AssetLoad.taskDone`.  The completing task is designated by its
index in the pending list (JavaScript locates it by object identity
via `indexOf`); `extras` is the content of the `assets` array after
the task's own `complete` hook and the `taskDone` trigger listeners
have appended recursive descriptors to it. -/
def taskDone (s : AState) (i : Nat) (result0 : Option JsVal) (extras : List JsVal) :
    StepOut :=
  if s.running = true then
    match s.tasks[i]? with
    | none => ⟨s, [], false, none⟩
    | some task =>
        let s1 := { s with tasks := s.tasks.eraseIdx i }
        let result : Option JsVal := filterResult result0
        let s2 :=
          match result with
          | some r => { s1 with results := foldRes s1.mode s1.results task.id r }
          | none => s1
        let cacheEvs : List Ev :=
          match result with
          | some r => if task.cache then [.cacheWrite task.id r] else []
          | none => []
        let evs1 := cacheEvs ++ [Ev.taskDoneEv result task.original extras]
        let s3 := (addTasks s2 (.arr extras)).1
        let m := (addTasks s2 (.arr extras)).2.1
        match (addTasks s2 (.arr extras)).2.2 with
        | some e => ⟨s3, evs1, false, some e⟩
        | none =>
            let s4 := { s3 with numLoaded := s3.numLoaded + 1 }
            let evs2 := evs1 ++ [Ev.progress ((s4.numLoaded : ℚ) / (s4.total : ℚ))]
            if s4.mode = Mode.map ∧ m ≠ Mode.map then
              ⟨s4, evs2, true, none⟩
            else if s4.tasks.length ≠ 0 then
              ⟨nextTask s4, evs2, false, none⟩
            else
              ⟨s4, evs2 ++ [Ev.complete s4.results], false, none⟩
  else ⟨s, [], false, none⟩

/-- `AssetLoad.start`: emit 0% progress, mark running, dispatch. -/
def startLoad (s : AState) : AState × List Ev :=
  (nextTask { s with running := true }, [Ev.progress 0])

/-- The options accepted by `AssetLoad.setup`. -/
structure Options where
  startAll : Bool := true
  autoStart : Bool := true
  cacheAll : Bool := false
  typeD : Option String := none

/-- `AssetLoad.setup`: store the options, admit the input collection,
fix the mode and allocate the matching empty container, then start if
`autoStart`.  A `TypeError` thrown during admission propagates before
the mode or container are set. -/
def setup (s : AState) (assets : JsVal) (opts : Options) :
    AState × List Ev × Option JsError :=
  let s1 := { s with startAll := opts.startAll, cacheAll := opts.cacheAll,
                     typeD := opts.typeD }
  match addTasks s1 assets with
  | (s2, _, some e) => (s2, [], some e)
  | (s2, m, none) =>
      let s3 := { s2 with mode := m, results := containerFor m }
      if opts.autoStart then
        let (s4, evs) := startLoad s3
        (s4, evs, none)
      else (s3, [], none)

/-- One externally observable completion during a batch run: the index
of the completing pending task, its produced result, and the recursive
descriptors its completion appends. -/
structure RStep where
  i : Nat
  result : Option JsVal
  extras : List JsVal

/-- A batch run: apply `taskDone` for each completion in order,
accumulating the emitted events; an uncaught error stops the run. -/
def runSteps : AState → List RStep → AState × List Ev × Option JsError
  | s, [] => (s, [], none)
  | s, st :: rest =>
      let o := taskDone s st.i st.result st.extras
      match o.crash with
      | some e => (o.state, o.events, some e)
      | none =>
          let r := runSteps o.state rest
          (r.1, o.events ++ r.2.1, r.2.2)

/-- The progress fractions contained in an event trace, in order. -/
def progressList (evs : List Ev) : List ℚ :=
  evs.filterMap fun e =>
    match e with
    | .progress q => some q
    | _ => none

/-- The non-empty results announced by `taskDone` triggers, in order. -/
def doneResults (evs : List Ev) : List JsVal :=
  evs.filterMap fun e =>
    match e with
    | .taskDoneEv (some r) _ _ => some r
    | _ => none

/-- The counting invariant of a batch: every admitted task is either
still pending or counted as loaded. -/
def Inv (s : AState) : Prop :=
  s.total = s.numLoaded + s.tasks.length

/-- Number of currently `RUNNING` tasks. -/
def countRunning (l : List Task) : Nat :=
  l.countP fun t => decide (t.status = .running)

/-- A size definition as created by `AssetSizes.define`. -/
structure SizeProfile where
  id : String
  maxSize : ℚ
  scale : ℚ
  fallback : List String
deriving DecidableEq, Repr

/-- The state of the `AssetSizes` resolver: the ascending-by-`maxSize`
list `_sizes`, the map `_sizesMap`, and the active `_preferredSize`. -/
structure AssetSizes where
  sizes : List SizeProfile := []
  sizesMap : List (String × SizeProfile) := []
  preferredSize : Option SizeProfile := none

/-- Stable insertion into a `maxSize`-ascending list. -/
def insertByMax (p : SizeProfile) : List SizeProfile → List SizeProfile
  | [] => [p]
  | q :: rest =>
      if p.maxSize < q.maxSize then p :: q :: rest else q :: insertByMax p rest

/-- The stable ascending sort `AssetSizes.define` performs
(`Array.sort` with comparator `a.maxSize - b.maxSize`). -/
def sortByMax : List SizeProfile → List SizeProfile
  | [] => []
  | p :: rest => insertByMax p (sortByMax rest)

/-- Assignment into `_sizesMap`. -/
def setSizeEntry : List (String × SizeProfile) → String → SizeProfile →
    List (String × SizeProfile)
  | [], k, v => [(k, v)]
  | (k', v') :: rest, k, v =>
      if k' = k then (k, v) :: rest else (k', v') :: setSizeEntry rest k v

/-- `AssetSizes.define`: record the profile in the map, push it onto
the list and re-sort ascending by `maxSize`. -/
def defineSize (st : AssetSizes) (id : String) (maxSize scale : ℚ)
    (fallback : List String) : AssetSizes :=
  let p : SizeProfile := ⟨id, maxSize, scale, fallback⟩
  { st with sizesMap := setSizeEntry st.sizesMap id p
            sizes := sortByMax (st.sizes ++ [p]) }

/-- The descending scan in `AssetSizes.refresh`: starting from the
largest profile, keep descending while `maxSize / devicePixelRatio`
still exceeds the smaller viewport dimension, and keep the last
profile that satisfied it; stop at the first that does not. -/
def refreshScan (dpr minSize : ℚ) : List SizeProfile → Option SizeProfile →
    Option SizeProfile
  | [], acc => acc
  | p :: rest, acc =>
      if p.maxSize / dpr > minSize then refreshScan dpr minSize rest (some p) else acc

/-- `AssetSizes.refresh`; the global `devicePixelRatio || 1` read is
made an explicit parameter. -/
def refresh (st : AssetSizes) (width height dpr : ℚ) : AssetSizes :=
  { st with preferredSize := refreshScan dpr (min width height) st.sizes.reverse none }

/-- Failures of `AssetSizes.size`: reading `.fallback` of a `null`
preferred size, or the `'Asset does not support any valid size'`
throw. -/
inductive SizeErr where
  | typeError | noValidSize
deriving DecidableEq, Repr

/-- The fallback walk in `AssetSizes.size`: return the first chain
entry not explicitly marked `false` in the capability map. -/
def walkFallback (supp : List (String × Bool)) : List String → Option String
  | [] => none
  | alt :: rest =>
      if supp.lookup alt = some false then walkFallback supp rest else some alt

/-- `AssetSizes.size(supported)`: start from the active profile; when
a capability map is present and does not mark the active id supported,
walk the fallback chain; a qualifying entry is looked up in
`_sizesMap` (an undefined entry trips the `!size` throw); when no
entry qualifies, `size` still holds the active profile and is
returned. -/
def sizeOf (st : AssetSizes) (supported : Option (List (String × Bool))) :
    Except SizeErr SizeProfile :=
  match st.preferredSize with
  | none => .error .typeError
  | some p =>
      match supported with
      | some supp =>
          if (supp.lookup p.id).getD false = true then .ok p
          else
            match walkFallback supp p.fallback with
            | some alt =>
                match st.sizesMap.lookup alt with
                | some q => .ok q
                | none => .error .noValidSize
            | none => .ok p
      | none => .ok p

/-- A pooled dispatcher request record.  `LoaderItem.js` is not among
the sources; modelled from the spec, a `DispatchItem` is keyed by its
identifier and carries per-request transport configuration that
`clear` resets (abandoning the transport operation). -/
structure LoaderItem where
  url : String := ""
  basePath : Option String := none
  crossOrigin : Bool := false
  data : Option JsVal := none
  loading : Bool := false

/-- Modelled from the spec: `LoaderItem.clear` aborts the in-flight
transport operation and resets the per-request configuration so the
item can be recycled. -/
def clearItem (item : LoaderItem) : LoaderItem :=
  { item with basePath := none, crossOrigin := false, data := none, loading := false }

/-- The `Loader` dispatcher state: the active map `items` (keyed by
url) and the free pool `itemPool`. -/
structure LoaderState where
  items : List (String × LoaderItem) := []
  itemPool : List LoaderItem := []

/-- `delete this.items[key]`. -/
def eraseKey : List (String × LoaderItem) → String → List (String × LoaderItem)
  | [], _ => []
  | (k', v) :: rest, k =>
      if k' = k then rest else (k', v) :: eraseKey rest k

/-- `Loader._putItem`: remove the item from the active map under its
own url, clear it, and push it onto the pool. -/
def putItem (s : LoaderState) (item : LoaderItem) : LoaderState :=
  { s with items := eraseKey s.items item.url
           itemPool := s.itemPool ++ [clearItem item] }

/-- `Loader.cancel(url)`: when an active item is tracked under the
url, clear (abort) it, return it to the pool and report `true`;
otherwise report `false`. -/
def cancel (s : LoaderState) (url : String) : Bool × LoaderState :=
  match s.items.lookup url with
  | some item => (true, putItem s (clearItem item))
  | none => (false, s)

/-! ## Theorems -/

/-- The size profiles of the spec's worked example: `sd` with maximum
size 100 and `hd` with maximum size 800 (fallback chain `["sd"]`). -/
def exampleSizes : AssetSizes :=
  defineSize (defineSize {} "sd" 100 1 []) "hd" 800 1 ["sd"]

/-- C8 counterexample: with exactly the profiles sd(100) and hd(800)
and devicePixelRatio 1, `refresh(100, 100)` makes `"hd"` the active
profile, not `"sd"` as the claim states — sd's 100/1 does not exceed
min(100, 100), so the descending scan stops at hd. -/
theorem c8_refresh_100_gives_hd :
    ((refresh exampleSizes 100 100 1).preferredSize.map SizeProfile.id) = some "hd" ∧
    (some "hd" : Option String) ≠ some "sd" := by
  refine ⟨?_, by decide⟩
  norm_num [exampleSizes, defineSize, setSizeEntry, sortByMax, insertByMax, refresh,
    refreshScan]

/-- C8 amended: with exactly the profiles sd(100) and hd(800) and
devicePixelRatio 1, `refresh(100, 100)` makes `"hd"` the active
profile (the smallest profile whose maxSize/devicePixelRatio exceeds
min(width, height)), and `refresh(50, 50)` makes `"sd"` the active
profile. -/
theorem c8_refresh_selection :
    ((refresh exampleSizes 100 100 1).preferredSize.map SizeProfile.id) = some "hd" ∧
    ((refresh exampleSizes 50 50 1).preferredSize.map SizeProfile.id) = some "sd" := by
  constructor <;>
    norm_num [exampleSizes, defineSize, setSizeEntry, sortByMax, insertByMax, refresh,
      refreshScan]

/-- C9 counterexample: with active profile `"hd"` (fallback `["sd"]`)
and the capability map marking both `"hd"` and `"sd"` unsupported, no
fallback entry qualifies — yet `size` returns the active (unsupported)
`"hd"` profile instead of raising a selection failure: the local
`size` variable still holds the preferred profile when the walk finds
nothing, so the `!size` throw never fires. -/
theorem c9_no_failure_when_no_fallback_qualifies :
    sizeOf (refresh exampleSizes 100 100 1) (some [("hd", false), ("sd", false)]) =
      Except.ok ⟨"hd", 800, 1, ["sd"]⟩ := by
  norm_num [exampleSizes, defineSize, setSizeEntry, sortByMax, insertByMax, refresh,
    refreshScan, sizeOf, walkFallback]
  simp +decide [List.lookup]

/-- C9 amended: `size(supported)` returns the active profile when no
capability map is given or the map marks the active id supported;
otherwise it walks the fallback chain in order and resolves the first
entry not explicitly marked `false` against the defined sizes, raising
a selection failure only when that entry has no defined profile; when
no entry in the chain qualifies it returns the active profile itself
rather than raising. -/
theorem c9_size_selection (st : AssetSizes) (p : SizeProfile)
    (supp : List (String × Bool)) (hp : st.preferredSize = some p) :
    (sizeOf st none = .ok p) ∧
    ((supp.lookup p.id).getD false = true → sizeOf st (some supp) = .ok p) ∧
    ((supp.lookup p.id).getD false = false → walkFallback supp p.fallback = none →
      sizeOf st (some supp) = .ok p) ∧
    (∀ alt, (supp.lookup p.id).getD false = false →
      walkFallback supp p.fallback = some alt →
      sizeOf st (some supp) =
        ((st.sizesMap.lookup alt).elim (Except.error SizeErr.noValidSize) Except.ok)) := by
  refine ⟨?_, ?_, ?_, ?_⟩
  · simp [sizeOf, hp]
  · intro h
    simp [sizeOf, hp, h]
  · intro h hw
    simp [sizeOf, hp, h, hw]
  · intro alt h hw
    cases hm : st.sizesMap.lookup alt <;> simp [sizeOf, hp, h, hw, hm]

/-- C9 witness: instantiating the amended selection theorem at the
spec's own example — active `"hd"`, fallback `["sd"]`,
`supported = {hd: false}` — yields the `"sd"` profile. -/
theorem c9_size_selection_witness :
    sizeOf (refresh exampleSizes 100 100 1) (some [("hd", false)]) =
      Except.ok ⟨"sd", 100, 1, []⟩ := by
  have hp : (refresh exampleSizes 100 100 1).preferredSize =
      some ⟨"hd", 800, 1, ["sd"]⟩ := by
    norm_num [exampleSizes, defineSize, setSizeEntry, sortByMax, insertByMax, refresh,
      refreshScan]
  have h := (c9_size_selection (refresh exampleSizes 100 100 1)
    ⟨"hd", 800, 1, ["sd"]⟩ [("hd", false)] hp).2.2.2 "sd" rfl rfl
  rw [h]
  norm_num [exampleSizes, defineSize, setSizeEntry, sortByMax, insertByMax, refresh]
  simp +decide [List.lookup]

/-- C10: `Loader.cancel(url)` returns `true`, aborts the item and
appends it to the pool when an active item is tracked under the url
(removing it from the active map under the item's own url), and
returns `false` leaving both the active map and the pool unchanged
when none is. -/
theorem c10_cancel (s : LoaderState) (url : String) :
    (s.items.lookup url = none → cancel s url = (false, s)) ∧
    (∀ item, s.items.lookup url = some item →
      (cancel s url).1 = true ∧
      (cancel s url).2.itemPool = s.itemPool ++ [clearItem (clearItem item)] ∧
      (cancel s url).2.items = eraseKey s.items item.url) := by
  constructor
  · intro h
    simp [cancel, h]
  · intro item h
    simp [cancel, h, putItem, clearItem]

/-- C10 witness: cancelling a tracked url pools the cleared item and
cancelling an unknown url reports `false` with the state unchanged. -/
theorem c10_cancel_witness :
    (cancel ⟨[("u", { url := "u", loading := true })], []⟩ "v" =
      (false, ⟨[("u", { url := "u", loading := true })], []⟩)) ∧
    (cancel ⟨[("u", { url := "u", loading := true })], []⟩ "u").1 = true ∧
    (cancel ⟨[("u", { url := "u", loading := true })], []⟩ "u").2.itemPool =
      [] ++ [clearItem (clearItem { url := "u", loading := true })] ∧
    (cancel ⟨[("u", { url := "u", loading := true })], []⟩ "u").2.items =
      eraseKey [("u", { url := "u", loading := true })] "u" := by
  refine ⟨(c10_cancel ⟨[("u", { url := "u", loading := true })], []⟩ "v").1 rfl, ?_⟩
  exact (c10_cancel ⟨[("u", { url := "u", loading := true })], []⟩ "u").2
    { url := "u", loading := true } rfl

/-- Folding `register` over a registration sequence reverses it. -/
theorem registerAll_eq_reverse (ds : List TaskDef) :
    registerAll ds = ds.reverse := by
  suffices h : ∀ acc, ds.foldl register acc = ds.reverse ++ acc by
    simpa [registerAll] using h []
  induction ds with
  | nil => intro acc; simp
  | cons d rest ih =>
      intro acc
      simp [List.foldl_cons, ih, register]

/-- C3: task-type resolution scans the registered variants in reverse
registration order — after registering `ds` in order, `getTaskByAsset`
returns the first variant of the reversed registration sequence whose
`test` accepts the descriptor; in particular a later registration
whose `test` accepts wins over every earlier one.
(`AssetManager.register` is not among the sources; it is modelled from
the spec as prepending, which is what makes the front-to-back scan in
`getTaskByAsset` a reverse-registration-order scan.) -/
theorem c3_lifo_resolution :
    (∀ ds a, getTaskByAsset (registerAll ds) a = ds.reverse.find? fun d => d.test a) ∧
    (∀ taskDefs d a, d.test a = true → getTaskByAsset (register taskDefs d) a = some d) := by
  constructor
  · intro ds a
    rw [getTaskByAsset, registerAll_eq_reverse]
  · intro taskDefs d a h
    simp [getTaskByAsset, register, List.find?, h]

/-- A batch input collection containing one descriptor `LoadTask`
matches and one structured record that no registered variant matches. -/
def c4Input : JsVal :=
  .arr [.obj [("src", .str "a.png")], .obj [("kind", .str "mystery")]]

/-- C4: the code contradicts its log-only design for resolution
failures.  `addTask` logs and returns `undefined` for the unmatched
descriptor, but the array branch of `addTasks` immediately reads
`task.id` from that `undefined`, raising an uncaught `TypeError`: the
collection admission aborts after the first (matched) descriptor
instead of silently excluding the unmatched one. -/
theorem c4_unmatched_descriptor_crashes :
    (addTasks (mkState [loadTaskDef]) c4Input).2.2 = some JsError.typeError ∧
    (addTasks (mkState [loadTaskDef]) c4Input).1.total = 1 := by
  exact ⟨rfl, rfl⟩

/-- `addTask` either leaves the state untouched (no matching variant)
or appends exactly one fresh `WAITING` task and bumps `total`. -/
theorem addTask_cases (s : AState) (a : JsVal) :
    addTask s a = (s, none) ∨
    ∃ t, addTask s a = ({ s with tasks := s.tasks ++ [t], total := s.total + 1 }, some t) ∧
      t.status = TaskStatus.waiting := by
  unfold addTask
  cases h : getTaskByAsset s.defs (applyTypeDef s.typeD a) with
  | none => left; simp [h]
  | some d =>
      right
      simp only [h]
      exact ⟨_, rfl, rfl⟩

/-- Rewriting the last task's id keeps a leading prefix intact. -/
theorem modifyLast_append_singleton (f : Task → Task) (xs : List Task) (t : Task) :
    modifyLast f (xs ++ [t]) = xs ++ [f t] := by
  induction xs with
  | nil => rfl
  | cons x rest ih =>
      cases rest with
      | nil => rfl
      | cons y ys => simpa [modifyLast] using ih

/-- The array branch of `addTasks` only appends fresh tasks. -/
theorem addArr_split (l : List JsVal) : ∀ (s : AState) (m : Mode), ∃ new : List Task,
    (addArr s l m).1 = { s with tasks := s.tasks ++ new, total := s.total + new.length } ∧
    ∀ t ∈ new, t.status = TaskStatus.waiting := by
  induction l with
  | nil => intro s m; exact ⟨[], by simp [addArr], by simp⟩
  | cons x rest ih =>
      intro s m
      rw [addArr]
      rcases addTask_cases s (applyDefaults x) with hA | ⟨t, hA, hw⟩
      · rw [hA]
        exact ⟨[], by simp, by simp⟩
      · rw [hA]
        dsimp only
        obtain ⟨n2, h2, hw2⟩ :=
          ih { s with tasks := s.tasks ++ [t], total := s.total + 1 }
            (if t.id = none then Mode.list else m)
        refine ⟨t :: n2, ?_, ?_⟩
        · rw [h2]
          simp [List.append_assoc]
          omega
        · intro u hu
          rcases List.mem_cons.1 hu with h | h
          · exact h ▸ hw
          · exact hw2 u h

/-- The plain-object branch of `addTasks` only appends fresh tasks. -/
theorem addObj_split (entries : List (String × JsVal)) : ∀ s : AState, ∃ new : List Task,
    (addObj s entries).1 = { s with tasks := s.tasks ++ new, total := s.total + new.length } ∧
    ∀ t ∈ new, t.status = TaskStatus.waiting := by
  induction entries with
  | nil => intro s; exact ⟨[], by simp [addObj], by simp⟩
  | cons e rest ih =>
      intro s
      obtain ⟨k, v⟩ := e
      rw [addObj]
      rcases addTask_cases s (applyDefaults v) with hA | ⟨t, hA, hw⟩
      · rw [hA]
        exact ⟨[], by simp, by simp⟩
      · rw [hA]
        dsimp only
        by_cases hid : t.id = none
        · have hstate :
              ({ ({ s with tasks := s.tasks ++ [t], total := s.total + 1 } : AState) with
                tasks := modifyLast (fun u => { u with id := some k })
                  ({ s with tasks := s.tasks ++ [t], total := s.total + 1 } : AState).tasks } :
                  AState) =
              { s with tasks := s.tasks ++ [{ t with id := some k }], total := s.total + 1 } := by
            simp [modifyLast_append_singleton]
          obtain ⟨n2, h2, hw2⟩ :=
            ih { s with tasks := s.tasks ++ [{ t with id := some k }], total := s.total + 1 }
          refine ⟨{ t with id := some k } :: n2, ?_, ?_⟩
          · rw [if_pos hid, hstate, h2]
            simp [List.append_assoc]
            omega
          · intro u hu
            rcases List.mem_cons.1 hu with h | h
            · subst h; exact hw
            · exact hw2 u h
        · obtain ⟨n2, h2, hw2⟩ := ih { s with tasks := s.tasks ++ [t], total := s.total + 1 }
          refine ⟨t :: n2, ?_, ?_⟩
          · rw [if_neg hid, h2]
            simp [List.append_assoc]
            omega
          · intro u hu
            rcases List.mem_cons.1 hu with h | h
            · exact h ▸ hw
            · exact hw2 u h

/-- `addTasks` only ever appends fresh (`WAITING`) tasks and bumps
`total` by their number; every other batch field is untouched. -/
theorem addTasks_split (s : AState) (x : JsVal) : ∃ new : List Task,
    (addTasks s x).1 = { s with tasks := s.tasks ++ new, total := s.total + new.length } ∧
    ∀ t ∈ new, t.status = TaskStatus.waiting := by
  unfold addTasks
  dsimp only
  cases h : getTaskByAsset s.defs (applyTypeDef s.typeD (applyDefaults x)) with
  | some d =>
      dsimp only
      rcases addTask_cases s (applyTypeDef s.typeD (applyDefaults x)) with hA | ⟨t, hA, hw⟩
      · rw [hA]
        exact ⟨[], by simp, by simp⟩
      · rw [hA]
        refine ⟨[t], rfl, ?_⟩
        intro u hu
        rcases List.mem_singleton.1 hu with rfl
        exact hw
  | none =>
      dsimp only
      cases hs : stripTypeDef s.typeD (applyTypeDef s.typeD (applyDefaults x)) with
      | arr l => exact addArr_split l s Mode.map
      | obj entries => exact addObj_split entries s
      | str v => exact ⟨[], by simp, by simp⟩
      | num v => exact ⟨[], by simp, by simp⟩
      | boolean v => exact ⟨[], by simp, by simp⟩
      | fn v => exact ⟨[], by simp, by simp⟩

/-- Fields of the batch state other than `tasks` and `total` are
preserved by `addTasks`. -/
theorem addTasks_keeps (s : AState) (x : JsVal) :
    (addTasks s x).1.mode = s.mode ∧ (addTasks s x).1.results = s.results ∧
    (addTasks s x).1.running = s.running ∧ (addTasks s x).1.startAll = s.startAll ∧
    (addTasks s x).1.numLoaded = s.numLoaded ∧ (addTasks s x).1.defs = s.defs ∧
    (addTasks s x).1.typeD = s.typeD ∧ (addTasks s x).1.cacheAll = s.cacheAll := by
  obtain ⟨new, h, -⟩ := addTasks_split s x
  rw [h]
  exact ⟨rfl, rfl, rfl, rfl, rfl, rfl, rfl, rfl⟩

/-- `RUNNING` tasks are counted over an append. -/
theorem countRunning_append (l₁ l₂ : List Task) :
    countRunning (l₁ ++ l₂) = countRunning l₁ + countRunning l₂ :=
  List.countP_append _ _ _

/-- Freshly admitted (all-`WAITING`) tasks contribute no `RUNNING`
count. -/
theorem countRunning_of_waiting (l : List Task)
    (h : ∀ t ∈ l, t.status = TaskStatus.waiting) : countRunning l = 0 := by
  induction l with
  | nil => rfl
  | cons t rest ih =>
      have ht := h t (List.mem_cons_self t rest)
      have : countRunning (t :: rest) = countRunning rest := by
        simp [countRunning, List.countP_cons, ht]
      rw [this]
      exact ih fun u hu => h u (List.mem_cons_of_mem t hu)

/-- `addTasks` does not change the number of `RUNNING` tasks. -/
theorem countRunning_addTasks (s : AState) (x : JsVal) :
    countRunning (addTasks s x).1.tasks = countRunning s.tasks := by
  obtain ⟨new, h, hw⟩ := addTasks_split s x
  rw [h]
  show countRunning (s.tasks ++ new) = countRunning s.tasks
  rw [countRunning_append, countRunning_of_waiting new hw]
  omega

/-- The batch-configuration fields that neither `addTasks`, `nextTask`
nor `taskDone` ever write. -/
def coreCfg (s : AState) : Mode × Bool × Bool × List TaskDef × Option String × Bool :=
  (s.mode, s.running, s.startAll, s.defs, s.typeD, s.cacheAll)

/-- `addTasks` preserves the configuration fields. -/
theorem coreCfg_addTasks (s : AState) (x : JsVal) :
    coreCfg (addTasks s x).1 = coreCfg s := by
  obtain ⟨new, h, -⟩ := addTasks_split s x
  rw [h]
  rfl

/-- `nextTask` preserves the configuration fields. -/
theorem coreCfg_nextTask (s : AState) : coreCfg (nextTask s) = coreCfg s := rfl

/-- `taskDone` preserves the configuration fields: in particular the
aggregate `mode` is fixed for the batch's lifetime. -/
theorem coreCfg_taskDone (s : AState) (i : Nat) (r : Option JsVal) (ex : List JsVal) :
    coreCfg (taskDone s i r ex).state = coreCfg s := by
  rw [taskDone.eq_def]
  split
  · cases hget : s.tasks[i]? with
    | none => rfl
    | some task =>
        dsimp only
        cases hfr : filterResult r <;>
        · simp only [hfr]
          split
          · exact coreCfg_addTasks _ _
          · split
            · exact coreCfg_addTasks _ _
            · split
              · rw [coreCfg_nextTask]
                exact coreCfg_addTasks _ _
              · exact coreCfg_addTasks _ _
  · rfl

/-- `addTasks` never writes the result container. -/
@[simp] theorem addTasks_results (s : AState) (x : JsVal) :
    (addTasks s x).1.results = s.results := (addTasks_keeps s x).2.1

/-- `addTasks` never writes the aggregate mode field. -/
@[simp] theorem addTasks_mode (s : AState) (x : JsVal) :
    (addTasks s x).1.mode = s.mode := (addTasks_keeps s x).1

/-- `addTasks` never writes the running flag. -/
@[simp] theorem addTasks_running (s : AState) (x : JsVal) :
    (addTasks s x).1.running = s.running := (addTasks_keeps s x).2.2.1

/-- `addTasks` never writes the scheduling policy. -/
@[simp] theorem addTasks_startAll (s : AState) (x : JsVal) :
    (addTasks s x).1.startAll = s.startAll := (addTasks_keeps s x).2.2.2.1

/-- `addTasks` never writes the completion counter. -/
@[simp] theorem addTasks_numLoaded (s : AState) (x : JsVal) :
    (addTasks s x).1.numLoaded = s.numLoaded := (addTasks_keeps s x).2.2.2.2.1

/-- `addTasks` never writes the registry. -/
@[simp] theorem addTasks_defs (s : AState) (x : JsVal) :
    (addTasks s x).1.defs = s.defs := (addTasks_keeps s x).2.2.2.2.2.1

/-- `nextTask` only rewrites task statuses. -/
@[simp] theorem nextTask_results (s : AState) : (nextTask s).results = s.results := rfl

/-- `nextTask` keeps the completion counter. -/
@[simp] theorem nextTask_numLoaded (s : AState) : (nextTask s).numLoaded = s.numLoaded := rfl

/-- `nextTask` keeps the admission counter. -/
@[simp] theorem nextTask_total (s : AState) : (nextTask s).total = s.total := rfl

/-- `nextTask` keeps the aggregate mode. -/
@[simp] theorem nextTask_mode (s : AState) : (nextTask s).mode = s.mode := rfl

/-- `nextTask` keeps the running flag. -/
@[simp] theorem nextTask_running (s : AState) : (nextTask s).running = s.running := rfl

/-- `dispatch` does not change the number of pending tasks. -/
@[simp] theorem dispatch_length (b : Bool) (l : List Task) :
    (dispatch b l).length = l.length := by
  induction l with
  | nil => rfl
  | cons t rest ih =>
      rw [dispatch]
      split
      · split <;> simp [ih]
      · simp [ih]

/-- `nextTask` does not change the number of pending tasks. -/
@[simp] theorem nextTask_tasks_length (s : AState) :
    (nextTask s).tasks.length = s.tasks.length := dispatch_length _ _

/-- `doneResults` distributes over trace concatenation. -/
@[simp] theorem doneResults_append (a b : List Ev) :
    doneResults (a ++ b) = doneResults a ++ doneResults b :=
  List.filterMap_append _ _ _

/-- The empty trace reports no results. -/
@[simp] theorem doneResults_nil : doneResults [] = [] := rfl

/-- Progress events report no task results. -/
@[simp] theorem doneResults_progress (q : ℚ) (l : List Ev) :
    doneResults (Ev.progress q :: l) = doneResults l := rfl

/-- Cache writes report no task results. -/
@[simp] theorem doneResults_cacheWrite (a : Option String) (v : JsVal) (l : List Ev) :
    doneResults (Ev.cacheWrite a v :: l) = doneResults l := rfl

/-- Terminal completion reports no per-task results. -/
@[simp] theorem doneResults_complete (c : Res) (l : List Ev) :
    doneResults (Ev.complete c :: l) = doneResults l := rfl

/-- A `taskDone` trigger with a produced value reports it. -/
@[simp] theorem doneResults_taskDoneEv_some (r : JsVal) (o : JsVal) (ex : List JsVal)
    (l : List Ev) :
    doneResults (Ev.taskDoneEv (some r) o ex :: l) = r :: doneResults l := rfl

/-- A `taskDone` trigger with no produced value reports nothing. -/
@[simp] theorem doneResults_taskDoneEv_none (o : JsVal) (ex : List JsVal) (l : List Ev) :
    doneResults (Ev.taskDoneEv none o ex :: l) = doneResults l := rfl

/-- `progressList` distributes over trace concatenation. -/
@[simp] theorem progressList_append (a b : List Ev) :
    progressList (a ++ b) = progressList a ++ progressList b :=
  List.filterMap_append _ _ _

/-- The empty trace carries no progress values. -/
@[simp] theorem progressList_nil : progressList [] = [] := rfl

/-- A progress event carries its fraction. -/
@[simp] theorem progressList_progress (q : ℚ) (l : List Ev) :
    progressList (Ev.progress q :: l) = q :: progressList l := rfl

/-- Cache writes carry no progress values. -/
@[simp] theorem progressList_cacheWrite (a : Option String) (v : JsVal) (l : List Ev) :
    progressList (Ev.cacheWrite a v :: l) = progressList l := rfl

/-- `taskDone` triggers carry no progress values. -/
@[simp] theorem progressList_taskDoneEv (r : Option JsVal) (o : JsVal) (ex : List JsVal)
    (l : List Ev) :
    progressList (Ev.taskDoneEv r o ex :: l) = progressList l := rfl

/-- Terminal completion carries no progress values. -/
@[simp] theorem progressList_complete (c : Res) (l : List Ev) :
    progressList (Ev.complete c :: l) = progressList l := rfl

/-- In list mode one `taskDone` call appends exactly the results it
announces — in completion order — to the array container. -/
theorem taskDone_list_append (s : AState) (i : Nat) (r : Option JsVal) (ex : List JsVal)
    (hm : s.mode = Mode.list) (cur : List JsVal) (hres : s.results = Res.arr cur) :
    (taskDone s i r ex).state.results =
      Res.arr (cur ++ doneResults (taskDone s i r ex).events) ∧
    (taskDone s i r ex).state.mode = Mode.list := by
  refine ⟨?_, ?_⟩
  · rw [taskDone.eq_def]
    split
    · cases hget : s.tasks[i]? with
      | none => simp [hres]
      | some task =>
          dsimp only
          cases hfr : filterResult r <;>
          · simp only [hfr]
            cases hc : task.cache <;>
            · split
              · simp [hres, hm, foldRes]
              · split
                · simp [hres, hm, foldRes]
                · split <;> simp [hres, hm, foldRes]
    · simp [hres]
  · have h := congrArg Prod.fst (coreCfg_taskDone s i r ex)
    simpa [coreCfg, hm] using h

/-- Over a whole run of completions, a list-mode batch accumulates the
announced results in trace (completion) order. -/
theorem runSteps_list_append (steps : List RStep) : ∀ (s : AState) (cur : List JsVal),
    s.mode = Mode.list → s.results = Res.arr cur →
    (runSteps s steps).1.results =
      Res.arr (cur ++ doneResults (runSteps s steps).2.1) := by
  induction steps with
  | nil =>
      intro s cur hm hres
      simpa [runSteps] using hres
  | cons st rest ih =>
      intro s cur hm hres
      rw [runSteps]
      obtain ⟨h1, h2⟩ := taskDone_list_append s st.i st.result st.extras hm cur hres
      cases hc : (taskDone s st.i st.result st.extras).crash with
      | some e => simpa [hc] using h1
      | none =>
          have := ih (taskDone s st.i st.result st.extras).state
            (cur ++ doneResults (taskDone s st.i st.result st.extras).events) h2 h1
          simp only [hc]
          rw [this]
          simp

/-- A one-element batch input array whose descriptor carries an id. -/
def c5Input : JsVal := .arr [.obj [("src", .str "a.png"), ("id", .str "x")]]

/-- C5 counterexample: an array input whose members all carry ids does
not fix the shape to LIST — the mode stays MAP (the demotion to LIST in
`addTasks` only happens for a member whose task lacks an id). -/
theorem c5_array_with_ids_is_map :
    (setup (mkState [loadTaskDef]) c5Input {}).1.mode = Mode.map ∧
    Mode.map ≠ Mode.list := by
  exact ⟨rfl, by decide⟩

/-- C5 amended: for a batch whose top-level input is an array of
descriptors at least one of which yields a task without an id,
`setup` fixes the aggregate shape to LIST and allocates an empty array
container; each produced result is then appended to that container in
completion order (the order of `taskDone` calls), not admission
order. -/
theorem c5_list_shape_and_completion_order :
    (∀ (s : AState) (opts : Options) (l : List JsVal),
      (addTasks { s with startAll := opts.startAll, cacheAll := opts.cacheAll,
                         typeD := opts.typeD } (.arr l)).2 = (Mode.list, none) →
      (setup s (.arr l) opts).1.mode = Mode.list ∧
      (setup s (.arr l) opts).1.results = Res.arr []) ∧
    (∀ (s : AState) (steps : List RStep), s.mode = Mode.list → s.results = Res.arr [] →
      (runSteps s steps).1.results = Res.arr (doneResults (runSteps s steps).2.1)) := by
  constructor
  · intro s opts l hadd
    rw [setup]
    cases hA : (addTasks { s with startAll := opts.startAll, cacheAll := opts.cacheAll,
                                  typeD := opts.typeD } (.arr l)) with
    | mk s2 me =>
        have hme : me = (Mode.list, none) := by
          have := congrArg Prod.snd hA
          simpa using this.symm.trans hadd
        subst hme
        dsimp only
        split <;> simp [startLoad, containerFor]
  · intro s steps hm hres
    simpa using runSteps_list_append steps s [] hm hres

/-- C5 witness: a concrete serial-free run — two id-less descriptors
admitted in order a, b but completing in order b, a — yields mode LIST
from setup and the container `[rb, ra]` in completion order. -/
theorem c5_list_witness :
    ((setup (mkState [loadTaskDef])
        (.arr [.obj [("src", .str "a.png")], .obj [("src", .str "b.png")]]) {}).1.mode =
      Mode.list ∧
     (setup (mkState [loadTaskDef])
        (.arr [.obj [("src", .str "a.png")], .obj [("src", .str "b.png")]]) {}).1.results =
      Res.arr []) ∧
    (runSteps ((setup (mkState [loadTaskDef])
        (.arr [.obj [("src", .str "a.png")], .obj [("src", .str "b.png")]]) {}).1)
      [⟨1, some (.str "rb"), []⟩, ⟨0, some (.str "ra"), []⟩]).1.results =
      Res.arr (doneResults (runSteps ((setup (mkState [loadTaskDef])
        (.arr [.obj [("src", .str "a.png")], .obj [("src", .str "b.png")]]) {}).1)
      [⟨1, some (.str "rb"), []⟩, ⟨0, some (.str "ra"), []⟩]).2.1) := by
  refine ⟨c5_list_shape_and_completion_order.1 (mkState [loadTaskDef]) {}
    [.obj [("src", .str "a.png")], .obj [("src", .str "b.png")]] rfl, ?_⟩
  exact c5_list_shape_and_completion_order.2 _ _
    (c5_list_shape_and_completion_order.1 (mkState [loadTaskDef]) {}
      [.obj [("src", .str "a.png")], .obj [("src", .str "b.png")]] rfl).1
    (c5_list_shape_and_completion_order.1 (mkState [loadTaskDef]) {}
      [.obj [("src", .str "a.png")], .obj [("src", .str "b.png")]] rfl).2

/-- Shape of the trace emitted by one applied `taskDone` call: an
optional cache write (present exactly when the filtered result is
non-empty and the task carries the cache flag), then the per-task
completion event, then only progress / terminal-completion events. -/
theorem taskDone_events_shape (s : AState) (i : Nat) (task : Task) (r : Option JsVal)
    (ex : List JsVal) (hrun : s.running = true) (hget : s.tasks[i]? = some task) :
    ∃ tail,
      (taskDone s i r ex).events =
        (match filterResult r with
          | some v => if task.cache = true then [Ev.cacheWrite task.id v] else []
          | none => []) ++ Ev.taskDoneEv (filterResult r) task.original ex :: tail ∧
      ∀ e ∈ tail, (∃ q, e = Ev.progress q) ∨ (∃ c, e = Ev.complete c) := by
  rw [taskDone.eq_def, if_pos hrun, hget]
  dsimp only
  split
  · exact ⟨[], rfl, by simp⟩
  · split
    · exact ⟨_, List.append_assoc _ _ _, by simp⟩
    · split
      · exact ⟨_, List.append_assoc _ _ _, by simp⟩
      · exact ⟨_, (List.append_assoc _ _ _).trans (List.append_assoc _ _ _), by simp⟩

/-- C6: during one `taskDone` call the external cache collaborator's
`write(id, result)` is invoked exactly when the task produced a
non-empty (truthy) result and carries the cache flag, and every such
invocation precedes the per-task completion event (and every other
notification) in the emitted trace. -/
theorem c6_cache_write_before_notification (s : AState) (i : Nat) (task : Task)
    (r : Option JsVal) (ex : List JsVal) (hrun : s.running = true)
    (hget : s.tasks[i]? = some task) :
    ((∃ v, Ev.cacheWrite task.id v ∈ (taskDone s i r ex).events) ↔
      (filterResult r ≠ none ∧ task.cache = true)) ∧
    (∀ (n m : Nat) (idv : Option String) (v : JsVal) (res : Option JsVal) (orig : JsVal)
      (exs : List JsVal),
      (taskDone s i r ex).events[n]? = some (Ev.cacheWrite idv v) →
      (taskDone s i r ex).events[m]? = some (Ev.taskDoneEv res orig exs) → n < m) := by
  obtain ⟨tail, hsh, htail⟩ := taskDone_events_shape s i task r ex hrun hget
  constructor
  · constructor
    · rintro ⟨v, hv⟩
      rw [hsh] at hv
      cases hfr : filterResult r with
      | none =>
          exfalso
          rw [hfr] at hv
          simp only [List.nil_append, List.mem_cons] at hv
          rcases hv with hv | hv
          · exact Ev.noConfusion hv
          · rcases htail _ hv with ⟨q, hq⟩ | ⟨c, hc⟩ <;> simp_all
      | some w =>
          refine ⟨fun h => by simp_all, ?_⟩
          by_contra hc
          rw [hfr] at hv
          simp only [Bool.not_eq_true] at hc
          rw [hc] at hv
          simp only [Bool.false_eq_true, if_false, List.nil_append, List.mem_cons] at hv
          rcases hv with hv | hv
          · exact Ev.noConfusion hv
          · rcases htail _ hv with ⟨q, hq⟩ | ⟨c', hc'⟩ <;> simp_all
    · rintro ⟨hv, hc⟩
      cases hfr : filterResult r with
      | none => exact absurd hfr hv
      | some w =>
          refine ⟨w, ?_⟩
          rw [hsh, hfr, hc]
          simp
  · intro n m idv v res orig exs hn hm
    rw [hsh] at hn hm
    cases hfr : filterResult r with
    | none =>
        exfalso
        rw [hfr] at hn
        simp only [List.nil_append] at hn
        rcases n with _ | n
        · rw [List.getElem?_cons_zero] at hn
          exact Ev.noConfusion (Option.some.inj hn)
        · rw [List.getElem?_cons_succ] at hn
          rcases htail _ (List.getElem?_mem hn) with ⟨q, hq⟩ | ⟨c, hcc⟩ <;> simp_all
    | some w =>
        rw [hfr] at hn hm
        by_cases hcch : task.cache = true
        · rw [hcch] at hn hm
          simp only [if_true, List.singleton_append] at hn hm
          have hn0 : n = 0 := by
            rcases n with _ | n
            · rfl
            · exfalso
              rw [List.getElem?_cons_succ] at hn
              rcases n with _ | n
              · rw [List.getElem?_cons_zero] at hn
                exact Ev.noConfusion (Option.some.inj hn)
              · rw [List.getElem?_cons_succ] at hn
                rcases htail _ (List.getElem?_mem hn) with ⟨q, hq⟩ | ⟨c, hcc⟩ <;> simp_all
          have hm1 : m ≠ 0 := by
            intro hm0
            rw [hm0, List.getElem?_cons_zero] at hm
            exact Ev.noConfusion (Option.some.inj hm)
          omega
        · exfalso
          simp only [Bool.not_eq_true] at hcch
          rw [hcch] at hn
          simp only [Bool.false_eq_true, if_false, List.nil_append] at hn
          rcases n with _ | n
          · rw [List.getElem?_cons_zero] at hn
            exact Ev.noConfusion (Option.some.inj hn)
          · rw [List.getElem?_cons_succ] at hn
            rcases htail _ (List.getElem?_mem hn) with ⟨q, hq⟩ | ⟨c, hcc⟩ <;> simp_all

/-- C6 witness: a cache-flagged task with a truthy result in a
concrete one-task batch writes the cache, and the write precedes the
completion event. -/
theorem c6_cache_write_witness :
    ((∃ v, Ev.cacheWrite (some "x") v ∈
      (taskDone { mkState [loadTaskDef] with
                    tasks := [⟨some "x", true, TaskStatus.running,
                      .obj [("src", .str "a.png")]⟩],
                    results := Res.obj [], mode := Mode.map, running := true,
                    total := 1 } 0 (some (.str "ra")) []).events) ↔
      (filterResult (some (.str "ra")) ≠ none ∧ true = true)) ∧
    (∀ (n m : Nat) (idv : Option String) (v : JsVal) (res : Option JsVal) (orig : JsVal)
      (exs : List JsVal),
      (taskDone { mkState [loadTaskDef] with
                    tasks := [⟨some "x", true, TaskStatus.running,
                      .obj [("src", .str "a.png")]⟩],
                    results := Res.obj [], mode := Mode.map, running := true,
                    total := 1 } 0 (some (.str "ra")) []).events[n]? =
        some (Ev.cacheWrite idv v) →
      (taskDone { mkState [loadTaskDef] with
                    tasks := [⟨some "x", true, TaskStatus.running,
                      .obj [("src", .str "a.png")]⟩],
                    results := Res.obj [], mode := Mode.map, running := true,
                    total := 1 } 0 (some (.str "ra")) []).events[m]? =
        some (Ev.taskDoneEv res orig exs) → n < m) := by
  exact c6_cache_write_before_notification _ 0
    ⟨some "x", true, TaskStatus.running, .obj [("src", .str "a.png")]⟩
    (some (.str "ra")) [] rfl rfl

/-- C2: while the batch's aggregate shape is MAP, a completed task
whose recursive admission demotes the computed mode to LIST (an
admitted descriptor lacks an id) makes `taskDone` raise the fatal
shape-violation (`fatal = true`: `Debug.error` + abort in debug,
`throw 'Assets require IDs'` in release) instead of silently demoting:
the batch's mode field stays MAP, the container keeps its MAP shape
with this call's own result folded in and every earlier entry intact,
and no terminal `complete` event is emitted. -/
theorem c2_map_shape_violation (s : AState) (i : Nat) (task : Task) (rv : JsVal)
    (extras : List JsVal) (es : List (String × JsVal))
    (hrun : s.running = true) (hget : s.tasks[i]? = some task)
    (hmode : s.mode = Mode.map) (hres : s.results = Res.obj es)
    (htr : truthy rv = true)
    (hdemote : (addTasks { s with tasks := s.tasks.eraseIdx i,
                                  results := foldRes s.mode s.results task.id rv }
        (.arr extras)).2 = (Mode.list, none)) :
    (taskDone s i (some rv) extras).fatal = true ∧
    (taskDone s i (some rv) extras).crash = none ∧
    (taskDone s i (some rv) extras).state.mode = Mode.map ∧
    (taskDone s i (some rv) extras).state.results =
      Res.obj (setEntry es (keyOf task.id) rv) ∧
    (∀ c, Ev.complete c ∉ (taskDone s i (some rv) extras).events) := by
  have hfr : filterResult (some rv) = some rv := by simp [filterResult, htr]
  have h21 : (addTasks { s with tasks := s.tasks.eraseIdx i,
                                results := foldRes s.mode s.results task.id rv }
      (.arr extras)).2.1 = Mode.list := by
    rw [hdemote]
  have h22 : (addTasks { s with tasks := s.tasks.eraseIdx i,
                                results := foldRes s.mode s.results task.id rv }
      (.arr extras)).2.2 = none := by
    rw [hdemote]
  rw [taskDone.eq_def, if_pos hrun, hget]
  dsimp only
  rw [hfr]
  dsimp only
  rw [h22]
  dsimp only
  rw [if_pos]
  · refine ⟨rfl, rfl, ?_, ?_, ?_⟩
    · simp [hmode]
    · simp [hmode, hres, foldRes]
    · intro c
      simp
  · constructor
    · simp [hmode]
    · rw [h21]
      decide

/-- Serial `nextTask` scan over a task list: either there is no
`WAITING` task and the list is unchanged, or exactly the first
`WAITING` task is flipped to `RUNNING` and the scan stops. -/
theorem dispatch_serial_cases (l : List Task) :
    (dispatch false l = l ∧ ∀ t ∈ l, t.status ≠ TaskStatus.waiting) ∨
    (∃ pre t post, l = pre ++ t :: post ∧
      (∀ u ∈ pre, u.status ≠ TaskStatus.waiting) ∧
      t.status = TaskStatus.waiting ∧
      dispatch false l = pre ++ { t with status := TaskStatus.running } :: post) := by
  induction l with
  | nil => left; exact ⟨rfl, by simp⟩
  | cons a rest ih =>
      by_cases ha : a.status = TaskStatus.waiting
      · right
        refine ⟨[], a, rest, by simp, by simp, ha, ?_⟩
        rw [dispatch, if_pos ha]
        simp
      · rcases ih with ⟨hd, hall⟩ | ⟨pre, t, post, hsplit, hpre, ht, hd⟩
        · left
          constructor
          · rw [dispatch, if_neg ha, hd]
          · intro t htm
            rcases List.mem_cons.1 htm with rfl | htm
            · exact ha
            · exact hall t htm
        · right
          refine ⟨a :: pre, t, post, by simp [hsplit], ?_, ht, ?_⟩
          · intro u hu
            rcases List.mem_cons.1 hu with rfl | hu
            · exact ha
            · exact hpre u hu
          · rw [dispatch, if_neg ha, hd]
            simp

/-- A serial dispatch pass starts at most one additional task. -/
theorem countRunning_dispatch_serial (l : List Task) :
    countRunning (dispatch false l) ≤ countRunning l + 1 := by
  rcases dispatch_serial_cases l with ⟨hd, -⟩ | ⟨pre, t, post, hsplit, -, ht, hd⟩
  · rw [hd]; omega
  · rw [hd, hsplit, countRunning_append, countRunning_append]
    have h1 : countRunning ({ t with status := TaskStatus.running } :: post) =
        countRunning post + 1 := by
      simp [countRunning, List.countP_cons]
    have h2 : countRunning (t :: post) = countRunning post := by
      simp [countRunning, List.countP_cons, ht]
    omega

/-- Removing the completing (`RUNNING`) task decrements the running
count by one. -/
theorem countRunning_eraseIdx (l : List Task) : ∀ (i : Nat) (t : Task),
    l[i]? = some t → t.status = TaskStatus.running →
    countRunning (l.eraseIdx i) + 1 = countRunning l := by
  induction l with
  | nil => intro i t h _; simp at h
  | cons a rest ih =>
      intro i t h ht
      cases i with
      | zero =>
          rw [List.getElem?_cons_zero] at h
          obtain rfl := Option.some.inj h
          simp [List.eraseIdx_cons_zero, countRunning, List.countP_cons, ht]
      | succ n =>
          rw [List.getElem?_cons_succ] at h
          have hrec := ih n t h ht
          rw [List.eraseIdx_cons_succ]
          have hcons : ∀ l' : List Task, countRunning (a :: l') =
              countRunning l' + (if a.status = TaskStatus.running then 1 else 0) := by
            intro l'
            by_cases ha : a.status = TaskStatus.running <;>
              simp [countRunning, List.countP_cons, ha]
          rw [hcons, hcons]
          omega

/-- A serial `nextTask` invocation starts at most one task. -/
theorem countRunning_nextTask_le (s : AState) (hs : s.startAll = false) :
    countRunning (nextTask s).tasks ≤ countRunning s.tasks + 1 := by
  show countRunning (dispatch s.startAll s.tasks) ≤ _
  rw [hs]
  exact countRunning_dispatch_serial _

/-- C7: under the serial policy (`startAll = false`), every `nextTask`
invocation transitions at most one `WAITING` task to `RUNNING` — the
first one in admission order — and then stops; consequently a batch
started serially with no running task has at most one `RUNNING` task,
and the at-most-one-`RUNNING` invariant is preserved by every
completion (`taskDone` of a `RUNNING` task), so a later task is never
dispatched before the earlier task's completion fires. -/
theorem c7_serial_at_most_one_running :
    (∀ s : AState, s.startAll = false →
      ((nextTask s).tasks = s.tasks ∧ ∀ t ∈ s.tasks, t.status ≠ TaskStatus.waiting) ∨
      (∃ pre t post, s.tasks = pre ++ t :: post ∧
        (∀ u ∈ pre, u.status ≠ TaskStatus.waiting) ∧
        t.status = TaskStatus.waiting ∧
        (nextTask s).tasks = pre ++ { t with status := TaskStatus.running } :: post)) ∧
    (∀ s : AState, s.startAll = false → countRunning s.tasks = 0 →
      countRunning (startLoad s).1.tasks ≤ 1) ∧
    (∀ (s : AState) (i : Nat) (task : Task) (r : Option JsVal) (ex : List JsVal),
      s.startAll = false → countRunning s.tasks ≤ 1 →
      s.tasks[i]? = some task → task.status = TaskStatus.running →
      countRunning (taskDone s i r ex).state.tasks ≤ 1) := by
  refine ⟨?_, ?_, ?_⟩
  · intro s hs
    have h := dispatch_serial_cases s.tasks
    rw [show (nextTask s).tasks = dispatch s.startAll s.tasks from rfl, hs]
    exact h
  · intro s hs h0
    show countRunning (dispatch s.startAll s.tasks) ≤ 1
    rw [hs]
    calc countRunning (dispatch false s.tasks) ≤ countRunning s.tasks + 1 :=
          countRunning_dispatch_serial _
      _ ≤ 1 := by omega
  · intro s i task r ex hs hc hget hrtask
    rw [taskDone.eq_def]
    split
    · rw [hget]
      dsimp only
      have herase : countRunning (s.tasks.eraseIdx i) + 1 = countRunning s.tasks :=
        countRunning_eraseIdx s.tasks i task hget hrtask
      cases hfr : filterResult r <;>
      · simp only [hfr]
        split
        · rw [countRunning_addTasks]
          dsimp only
          omega
        · split
          · dsimp only
            rw [countRunning_addTasks]
            dsimp only
            omega
          · split
            · refine le_trans (countRunning_nextTask_le _ ?_) ?_
              · dsimp only
                rw [addTasks_startAll]
                dsimp only
                exact hs
              · dsimp only
                rw [countRunning_addTasks]
                dsimp only
                omega
            · dsimp only
              rw [countRunning_addTasks]
              dsimp only
              omega
    · exact hc

/-- The type default leaves arrays untouched (array property writes
are dropped in this model). -/
theorem applyTypeDef_arr (typeD : Option String) (l : List JsVal) :
    applyTypeDef typeD (.arr l) = .arr l := by
  rw [applyTypeDef.eq_def]
  cases typeD with
  | none => rfl
  | some t =>
      dsimp only
      split
      · rfl
      · rfl

/-- Removing the type default leaves arrays untouched. -/
theorem stripTypeDef_arr (typeD : Option String) (l : List JsVal) :
    stripTypeDef typeD (.arr l) = .arr l := by
  rw [stripTypeDef.eq_def]
  cases typeD with
  | none => rfl
  | some t => rfl

/-- Admitting an empty recursive-descriptor array is a no-op that
reports MAP mode (so it never demotes and never crashes), provided no
registered variant accepts the empty array itself. -/
theorem addTasks_empty_arr (s : AState)
    (hd : ∀ d ∈ s.defs, d.test (.arr []) = false) :
    addTasks s (.arr []) = (s, Mode.map, none) := by
  have hfind : getTaskByAsset s.defs (applyTypeDef s.typeD (applyDefaults (.arr []))) =
      none := by
    rw [show applyDefaults (.arr []) = .arr [] from rfl, applyTypeDef_arr]
    rw [getTaskByAsset]
    rw [List.find?_eq_none]
    intro d hdm
    rw [hd d hdm]
    exact Bool.false_ne_true
  unfold addTasks
  dsimp only
  rw [hfind]
  dsimp only
  rw [show applyDefaults (.arr []) = .arr [] from rfl, applyTypeDef_arr, stripTypeDef_arr]
  rfl

/-- A completion signal for a task that is no longer pending is
ignored (`indexOf === -1` guard). -/
theorem taskDone_oob (s : AState) (i : Nat) (r : Option JsVal) (ex : List JsVal)
    (h : s.tasks[i]? = none) : taskDone s i r ex = ⟨s, [], false, none⟩ := by
  rw [taskDone.eq_def]
  split
  · rw [h]
  · rfl

/-- One applied `taskDone` call that admits nothing new: it cannot
crash or trip the shape check, it completes exactly one task (`total`
fixed, `numLoaded` up by one, pending down by one) and it emits exactly
one progress fraction, `(numLoaded+1)/total`. -/
theorem taskDone_no_admission (s : AState) (i : Nat) (task : Task) (r : Option JsVal)
    (hrun : s.running = true) (hget : s.tasks[i]? = some task)
    (hd : ∀ d ∈ s.defs, d.test (.arr []) = false) :
    (taskDone s i r []).crash = none ∧
    (taskDone s i r []).fatal = false ∧
    (taskDone s i r []).state.running = true ∧
    (taskDone s i r []).state.defs = s.defs ∧
    (taskDone s i r []).state.total = s.total ∧
    (taskDone s i r []).state.numLoaded = s.numLoaded + 1 ∧
    (taskDone s i r []).state.tasks.length = s.tasks.length - 1 ∧
    progressList (taskDone s i r []).events =
      [((s.numLoaded : ℚ) + 1) / (s.total : ℚ)] := by
  have hlt : i < s.tasks.length := by
    rcases List.getElem?_eq_some.1 hget with ⟨hlt, -⟩
    exact hlt
  rw [taskDone.eq_def, if_pos hrun, hget]
  dsimp only
  cases hfr : filterResult r <;>
  · simp only [hfr]
    rw [addTasks_empty_arr _ (by exact hd)]
    dsimp only
    rw [if_neg (by simp)]
    split
    · refine ⟨rfl, rfl, hrun, rfl, rfl, rfl, ?_, ?_⟩
      · rw [nextTask_tasks_length]
        exact List.length_eraseIdx_of_lt hlt
      · by_cases hcc : task.cache = true <;> simp [hcc]
    · refine ⟨rfl, rfl, hrun, rfl, rfl, rfl, ?_, ?_⟩
      · exact List.length_eraseIdx_of_lt hlt
      · by_cases hcc : task.cache = true <;> simp [hcc]

/-- A run whose completions admit no further descriptors: the run
never crashes, `total` is fixed, the counting invariant is preserved,
and the emitted progress fractions are exactly
`(numLoaded+1)/total, …, numLoadedFinal/total` in order. -/
theorem runSteps_no_admission (steps : List RStep) : ∀ s : AState,
    s.running = true → (∀ d ∈ s.defs, d.test (.arr []) = false) → Inv s →
    (∀ st ∈ steps, st.extras = ([] : List JsVal)) →
    (runSteps s steps).2.2 = none ∧
    Inv (runSteps s steps).1 ∧
    (runSteps s steps).1.total = s.total ∧
    (runSteps s steps).1.running = true ∧
    (runSteps s steps).1.defs = s.defs ∧
    s.numLoaded ≤ (runSteps s steps).1.numLoaded ∧
    progressList (runSteps s steps).2.1 =
      (List.range' (s.numLoaded + 1) ((runSteps s steps).1.numLoaded - s.numLoaded)).map
        (fun k : Nat => (k : ℚ) / (s.total : ℚ)) := by
  induction steps with
  | nil =>
      intro s hrun hd hinv hx
      exact ⟨rfl, hinv, rfl, hrun, rfl, le_refl _, by simp [runSteps]⟩
  | cons st rest ih =>
      intro s hrun hd hinv hx
      have hxe : st.extras = ([] : List JsVal) := hx st (List.mem_cons_self _ _)
      have hxr : ∀ u ∈ rest, u.extras = ([] : List JsVal) :=
        fun u hu => hx u (List.mem_cons_of_mem _ hu)
      rw [runSteps]
      cases hget : s.tasks[st.i]? with
      | none =>
          rw [hxe, taskDone_oob s st.i st.result [] hget]
          dsimp only
          have h := ih s hrun hd hinv hxr
          exact ⟨h.1, h.2.1, h.2.2.1, h.2.2.2.1, h.2.2.2.2.1, h.2.2.2.2.2.1,
            by simpa using h.2.2.2.2.2.2⟩
      | some task =>
          rw [hxe]
          obtain ⟨hcr, -, hrun', hdefs', htot', hnum', hlen', hpr'⟩ :=
            taskDone_no_admission s st.i task st.result hrun hget hd
          have hlen1 : 1 ≤ s.tasks.length := by
            rcases List.getElem?_eq_some.1 hget with ⟨hlt, -⟩
            omega
          have hinv' : Inv (taskDone s st.i st.result []).state := by
            unfold Inv at hinv ⊢
            rw [htot', hnum', hlen']
            omega
          have hd' : ∀ d ∈ (taskDone s st.i st.result []).state.defs,
              d.test (.arr []) = false := by
            rw [hdefs']
            exact hd
          have h := ih (taskDone s st.i st.result []).state hrun' hd' hinv' hxr
          rw [hcr]
          dsimp only
          refine ⟨h.1, h.2.1, ?_, h.2.2.2.1, ?_, ?_, ?_⟩
          · rw [h.2.2.1, htot']
          · rw [h.2.2.2.2.1, hdefs']
          · calc s.numLoaded ≤ s.numLoaded + 1 := by omega
              _ = (taskDone s st.i st.result []).state.numLoaded := hnum'.symm
              _ ≤ _ := h.2.2.2.2.2.1
          · rw [progressList_append, hpr', h.2.2.2.2.2.2, hnum', htot']
            have hδ : (runSteps (taskDone s st.i st.result []).state rest).1.numLoaded -
                s.numLoaded =
                ((runSteps (taskDone s st.i st.result []).state rest).1.numLoaded -
                  (s.numLoaded + 1)) + 1 := by
              have := h.2.2.2.2.2.1
              rw [hnum'] at this
              omega
            rw [hδ, show ∀ a n : Nat, List.range' a (n + 1) = a :: List.range' (a + 1) n
              from fun a n => rfl]
            simp [Nat.cast_add, Nat.cast_one]

/-- A completion signal for a torn-down batch (`running` cleared) is
ignored. -/
theorem taskDone_not_running (s : AState) (i : Nat) (r : Option JsVal) (ex : List JsVal)
    (h : ¬s.running = true) : taskDone s i r ex = ⟨s, [], false, none⟩ := by
  rw [taskDone.eq_def, if_neg h]

/-- With no pending tasks every completion signal is a no-op
(`indexOf` cannot find the task). -/
theorem taskDone_empty_tasks (s : AState) (i : Nat) (r : Option JsVal) (ex : List JsVal)
    (h : s.tasks = []) : taskDone s i r ex = ⟨s, [], false, none⟩ := by
  rw [taskDone.eq_def]
  split
  · rw [h]
    rfl
  · rfl

/-- Once the pending list is empty, the rest of a run changes nothing
and emits nothing. -/
theorem runSteps_empty_tasks (steps : List RStep) : ∀ s : AState, s.tasks = [] →
    runSteps s steps = (s, [], none) := by
  induction steps with
  | nil => intro s _; rfl
  | cons st rest ih =>
      intro s h
      rw [runSteps, taskDone_empty_tasks s st.i st.result st.extras h]
      dsimp only
      rw [ih s h]
      rfl

/-- `addTasks` shifts `total` and the pending length by the same
amount (the number of admitted tasks) and leaves `numLoaded` alone. -/
theorem addTasks_shift (s2 : AState) (x : JsVal) : ∃ d : Nat,
    (addTasks s2 x).1.total = s2.total + d ∧
    (addTasks s2 x).1.tasks.length = s2.tasks.length + d ∧
    (addTasks s2 x).1.numLoaded = s2.numLoaded ∧
    ((addTasks s2 x).1.tasks.length = 0 → (addTasks s2 x).1.tasks = []) := by
  obtain ⟨new, h, -⟩ := addTasks_split s2 x
  refine ⟨new.length, by rw [h], by rw [h]; simp, by rw [h], ?_⟩
  intro hl
  exact List.length_eq_zero.1 hl

/-- The optional cache write carries no progress fraction. -/
@[simp] theorem progressList_cacheOpt (c : Bool) (idv : Option String) (v : JsVal) :
    progressList (if c = true then [Ev.cacheWrite idv v] else []) = [] := by
  cases c <;> simp

/-- Unconditional core of the '1.0 only when pending empty' half of
the progress property: any single `taskDone` call — recursive
admission included — preserves the counting invariant
`total = numLoaded + pending` when it does not crash, and if its trace
contains the progress fraction 1 then its post-state has no pending
tasks. -/
theorem taskDone_inv_progress_one (s : AState) (i : Nat) (r : Option JsVal)
    (ex : List JsVal) (hinv : Inv s) :
    ((taskDone s i r ex).crash = none → Inv (taskDone s i r ex).state) ∧
    ((1 : ℚ) ∈ progressList (taskDone s i r ex).events →
      (taskDone s i r ex).state.tasks = []) := by
  unfold Inv at hinv
  rw [taskDone.eq_def]
  split
  · cases hget : s.tasks[i]? with
    | none => exact ⟨fun _ => hinv, by simp⟩
    | some task =>
        have hlt : i < s.tasks.length := by
          rcases List.getElem?_eq_some.1 hget with ⟨h, -⟩
          exact h
        have hlen : (s.tasks.eraseIdx i).length = s.tasks.length - 1 :=
          List.length_eraseIdx_of_lt hlt
        dsimp only
        cases hfr : filterResult r with
        | none =>
            simp only [hfr]
            obtain ⟨d, hT, hL, hN, hEmp⟩ :=
              addTasks_shift { s with tasks := s.tasks.eraseIdx i } (JsVal.arr ex)
            dsimp only at hT hL hN
            rw [hlen] at hL
            split
            · refine ⟨fun hcr => absurd hcr (by simp), ?_⟩
              intro h1
              simp at h1
            · split
              · refine ⟨fun _ => ?_, fun h1 => ?_⟩
                · show Inv _
                  unfold Inv
                  dsimp only
                  rw [hT, hN, hL]
                  omega
                · simp only [progressList_append, progressList_cacheOpt, progressList_nil,
                    progressList_taskDoneEv, progressList_progress, progressList_complete,
                    List.nil_append, List.append_nil, List.mem_singleton, List.mem_append,
                    List.not_mem_nil, false_or, or_false, addTasks_numLoaded] at h1
                  rw [hT] at h1
                  apply hEmp
                  rcases Nat.eq_zero_or_pos (s.total + d) with h0 | h0
                  · rw [h0] at h1
                    norm_num at h1
                  · have hne : ((s.total + d : ℕ) : ℚ) ≠ 0 := by
                      exact_mod_cast Nat.pos_iff_ne_zero.1 h0
                    have h2 : ((s.numLoaded + 1 : ℕ) : ℚ) / ((s.total + d : ℕ) : ℚ) = 1 := by
                      exact_mod_cast h1.symm
                    have h3 : ((s.numLoaded + 1 : ℕ) : ℚ) = ((s.total + d : ℕ) : ℚ) :=
                      (div_eq_one_iff_eq hne).1 h2
                    have hnat : s.numLoaded + 1 = s.total + d := by exact_mod_cast h3
                    rw [hL]
                    omega
              · split
                · rename_i hne4
                  refine ⟨fun _ => ?_, fun h1 => ?_⟩
                  · show Inv (nextTask _)
                    unfold Inv
                    rw [nextTask_total, nextTask_numLoaded, nextTask_tasks_length]
                    dsimp only
                    rw [hT, hN, hL]
                    omega
                  · exfalso
                    simp only [progressList_append, progressList_cacheOpt, progressList_nil,
                      progressList_taskDoneEv, progressList_progress, progressList_complete,
                      List.nil_append, List.append_nil, List.mem_singleton, List.mem_append,
                      List.not_mem_nil, false_or, or_false, addTasks_numLoaded] at h1
                    rw [hT] at h1
                    rcases Nat.eq_zero_or_pos (s.total + d) with h0 | h0
                    · rw [h0] at h1
                      norm_num at h1
                    · have hne : ((s.total + d : ℕ) : ℚ) ≠ 0 := by
                        exact_mod_cast Nat.pos_iff_ne_zero.1 h0
                      have h2 : ((s.numLoaded + 1 : ℕ) : ℚ) / ((s.total + d : ℕ) : ℚ) =
                          1 := by
                        exact_mod_cast h1.symm
                      have h3 : ((s.numLoaded + 1 : ℕ) : ℚ) = ((s.total + d : ℕ) : ℚ) :=
                        (div_eq_one_iff_eq hne).1 h2
                      have hnat : s.numLoaded + 1 = s.total + d := by exact_mod_cast h3
                      rw [hL] at hne4
                      omega
                · refine ⟨fun _ => ?_, fun h1 => ?_⟩
                  · show Inv _
                    unfold Inv
                    dsimp only
                    rw [hT, hN, hL]
                    omega
                  · simp only [progressList_append, progressList_cacheOpt, progressList_nil,
                      progressList_taskDoneEv, progressList_progress, progressList_complete,
                      List.nil_append, List.append_nil, List.mem_singleton, List.mem_append,
                      List.not_mem_nil, false_or, or_false, addTasks_numLoaded] at h1
                    rw [hT] at h1
                    apply hEmp
                    rcases Nat.eq_zero_or_pos (s.total + d) with h0 | h0
                    · rw [h0] at h1
                      norm_num at h1
                    · have hne : ((s.total + d : ℕ) : ℚ) ≠ 0 := by
                        exact_mod_cast Nat.pos_iff_ne_zero.1 h0
                      have h2 : ((s.numLoaded + 1 : ℕ) : ℚ) / ((s.total + d : ℕ) : ℚ) =
                          1 := by
                        exact_mod_cast h1.symm
                      have h3 : ((s.numLoaded + 1 : ℕ) : ℚ) = ((s.total + d : ℕ) : ℚ) :=
                        (div_eq_one_iff_eq hne).1 h2
                      have hnat : s.numLoaded + 1 = s.total + d := by exact_mod_cast h3
                      rw [hL]
                      omega

        | some v =>
            simp only [hfr]
            obtain ⟨d, hT, hL, hN, hEmp⟩ :=
              addTasks_shift { s with tasks := s.tasks.eraseIdx i,
                                      results := foldRes s.mode s.results task.id v }
                (JsVal.arr ex)
            dsimp only at hT hL hN
            rw [hlen] at hL
            split
            · refine ⟨fun hcr => absurd hcr (by simp), ?_⟩
              intro h1
              simp at h1
            · split
              · refine ⟨fun _ => ?_, fun h1 => ?_⟩
                · show Inv _
                  unfold Inv
                  dsimp only
                  rw [hT, hN, hL]
                  omega
                · simp only [progressList_append, progressList_cacheOpt, progressList_nil,
                    progressList_taskDoneEv, progressList_progress, progressList_complete,
                    List.nil_append, List.append_nil, List.mem_singleton, List.mem_append,
                    List.not_mem_nil, false_or, or_false, addTasks_numLoaded] at h1
                  rw [hT] at h1
                  apply hEmp
                  rcases Nat.eq_zero_or_pos (s.total + d) with h0 | h0
                  · rw [h0] at h1
                    norm_num at h1
                  · have hne : ((s.total + d : ℕ) : ℚ) ≠ 0 := by
                      exact_mod_cast Nat.pos_iff_ne_zero.1 h0
                    have h2 : ((s.numLoaded + 1 : ℕ) : ℚ) / ((s.total + d : ℕ) : ℚ) = 1 := by
                      exact_mod_cast h1.symm
                    have h3 : ((s.numLoaded + 1 : ℕ) : ℚ) = ((s.total + d : ℕ) : ℚ) :=
                      (div_eq_one_iff_eq hne).1 h2
                    have hnat : s.numLoaded + 1 = s.total + d := by exact_mod_cast h3
                    rw [hL]
                    omega
              · split
                · rename_i hne4
                  refine ⟨fun _ => ?_, fun h1 => ?_⟩
                  · show Inv (nextTask _)
                    unfold Inv
                    rw [nextTask_total, nextTask_numLoaded, nextTask_tasks_length]
                    dsimp only
                    rw [hT, hN, hL]
                    omega
                  · exfalso
                    simp only [progressList_append, progressList_cacheOpt, progressList_nil,
                      progressList_taskDoneEv, progressList_progress, progressList_complete,
                      List.nil_append, List.append_nil, List.mem_singleton, List.mem_append,
                      List.not_mem_nil, false_or, or_false, addTasks_numLoaded] at h1
                    rw [hT] at h1
                    rcases Nat.eq_zero_or_pos (s.total + d) with h0 | h0
                    · rw [h0] at h1
                      norm_num at h1
                    · have hne : ((s.total + d : ℕ) : ℚ) ≠ 0 := by
                        exact_mod_cast Nat.pos_iff_ne_zero.1 h0
                      have h2 : ((s.numLoaded + 1 : ℕ) : ℚ) / ((s.total + d : ℕ) : ℚ) =
                          1 := by
                        exact_mod_cast h1.symm
                      have h3 : ((s.numLoaded + 1 : ℕ) : ℚ) = ((s.total + d : ℕ) : ℚ) :=
                        (div_eq_one_iff_eq hne).1 h2
                      have hnat : s.numLoaded + 1 = s.total + d := by exact_mod_cast h3
                      rw [hL] at hne4
                      omega
                · refine ⟨fun _ => ?_, fun h1 => ?_⟩
                  · show Inv _
                    unfold Inv
                    dsimp only
                    rw [hT, hN, hL]
                    omega
                  · simp only [progressList_append, progressList_cacheOpt, progressList_nil,
                      progressList_taskDoneEv, progressList_progress, progressList_complete,
                      List.nil_append, List.append_nil, List.mem_singleton, List.mem_append,
                      List.not_mem_nil, false_or, or_false, addTasks_numLoaded] at h1
                    rw [hT] at h1
                    apply hEmp
                    rcases Nat.eq_zero_or_pos (s.total + d) with h0 | h0
                    · rw [h0] at h1
                      norm_num at h1
                    · have hne : ((s.total + d : ℕ) : ℚ) ≠ 0 := by
                        exact_mod_cast Nat.pos_iff_ne_zero.1 h0
                      have h2 : ((s.numLoaded + 1 : ℕ) : ℚ) / ((s.total + d : ℕ) : ℚ) =
                          1 := by
                        exact_mod_cast h1.symm
                      have h3 : ((s.numLoaded + 1 : ℕ) : ℚ) = ((s.total + d : ℕ) : ℚ) :=
                        (div_eq_one_iff_eq hne).1 h2
                      have hnat : s.numLoaded + 1 = s.total + d := by exact_mod_cast h3
                      rw [hL]
                      omega

  · exact ⟨fun _ => hinv, by simp⟩

/-- Unconditional run-level '1.0 only when pending empty': on any run
of an invariant-respecting batch — whatever the completions admit — a
progress fraction of 1.0 in the trace means the pending task list has
become (and stays) empty. -/
theorem runSteps_progress_one (steps : List RStep) : ∀ s : AState, Inv s →
    (1 : ℚ) ∈ progressList (runSteps s steps).2.1 → (runSteps s steps).1.tasks = [] := by
  induction steps with
  | nil =>
      intro s _ hm
      simp [runSteps] at hm
  | cons st rest ih =>
      intro s hinv hm
      obtain ⟨hInv', hone⟩ := taskDone_inv_progress_one s st.i st.result st.extras hinv
      rw [runSteps] at hm ⊢
      dsimp only at hm ⊢
      cases hc : (taskDone s st.i st.result st.extras).crash with
      | some e =>
          rw [hc] at hm
          dsimp only at hm
          exact hone hm
      | none =>
          rw [hc] at hm
          dsimp only at hm
          rw [progressList_append] at hm
          rcases List.mem_append.1 hm with h1 | h1
          · have hemp := hone h1
            rw [runSteps_empty_tasks rest _ hemp]
            exact hemp
          · exact ih _ (hInv' hc) h1

/-- The two-task id-less batch of the C1 counterexample. -/
def c1Input : JsVal :=
  .arr [.obj [("src", .str "a.png")], .obj [("src", .str "b.png")]]

/-- The four descriptors recursively admitted by the second completion
in the C1 counterexample run. -/
def c1Extras : List JsVal :=
  [.obj [("src", .str "c.png")], .obj [("src", .str "d.png")],
   .obj [("src", .str "e.png")], .obj [("src", .str "f.png")]]

/-- The full event trace of the C1 counterexample run: setup/start of
the two-task batch, then two completions, the second of which admits
four further descriptors (growing `total` from 2 to 6). -/
def c1Trace : List Ev :=
  (setup (mkState [loadTaskDef]) c1Input {}).2.1 ++
    (runSteps (setup (mkState [loadTaskDef]) c1Input {}).1
      [⟨0, some (.str "ra"), []⟩, ⟨0, some (.str "rb"), c1Extras⟩]).2.1

/-- C1 counterexample: the progress fractions emitted over the batch's
run are 0, 1/2, 1/3 — the second `taskDone` call admits four new
descriptors before emitting progress, so `numCompleted/total` drops
from 1/2 to 1/3 and the sequence is not non-decreasing. -/
theorem c1_progress_not_monotone :
    progressList c1Trace = [0, (1 : ℚ)/2, (1 : ℚ)/3] ∧
    ¬ List.Sorted (· ≤ ·) (progressList c1Trace) := by
  have h : progressList c1Trace =
      [0, ((1 : ℕ) : ℚ) / ((2 : ℕ) : ℚ), ((2 : ℕ) : ℚ) / ((6 : ℕ) : ℚ)] := rfl
  constructor
  · rw [h]
    norm_num
  · rw [h]
    intro hcon
    have h12 := (List.sorted_cons.1 (List.sorted_cons.1 hcon).2).1
      (((2 : ℕ) : ℚ) / ((6 : ℕ) : ℚ)) (List.mem_singleton.2 rfl)
    norm_num at h12

/-- C1 amended: on any invariant-respecting batch run — recursive
admission included — a progress fraction equal to 1.0 is emitted only
when the pending task list has become empty; and when no completion
recursively admits further descriptors (each completion's `assets`
list stays empty and the registry does not match the empty array) the
emitted progress fractions are moreover non-decreasing. (As the
counterexample shows, the monotonicity half of the unqualified
original claim fails once recursive admission grows `total` between
completions.) -/
theorem c1_progress_monotone_no_admission (s : AState) (steps : List RStep)
    (hinv : Inv s) :
    ((1 : ℚ) ∈ progressList (runSteps s steps).2.1 → (runSteps s steps).1.tasks = []) ∧
    (s.running = true → (∀ d ∈ s.defs, d.test (.arr []) = false) →
      (∀ st ∈ steps, st.extras = ([] : List JsVal)) →
      List.Sorted (· ≤ ·) (progressList (runSteps s steps).2.1)) := by
  refine ⟨runSteps_progress_one steps s hinv, fun hrun hd hx => ?_⟩
  obtain ⟨-, hinv', htot, -, -, hle, hpr⟩ := runSteps_no_admission steps s hrun hd hinv hx
  by_cases h0 : s.total = 0
  · have hnl : (runSteps s steps).1.numLoaded = 0 := by
      unfold Inv at hinv'
      omega
    have hz : (runSteps s steps).1.numLoaded - s.numLoaded = 0 := by omega
    rw [hpr, hz]
    simp
  · have htpos : (0 : ℚ) < (s.total : ℚ) := by
      exact_mod_cast Nat.pos_of_ne_zero h0
    rw [hpr]
    exact List.Pairwise.map _
      (fun a b hab => (div_le_div_iff_of_pos_right htpos).mpr
        (by exact_mod_cast Nat.le_of_lt hab))
      (List.pairwise_lt_range' _ _)

/-- C1 witness: on a concrete two-task batch completed in two
admission-free steps, 1.0 appears only at the end, when pending is
empty, and the progress trace (1/2 then 1) is non-decreasing. -/
theorem c1_progress_monotone_witness :
    ((1 : ℚ) ∈ progressList (runSteps
      (setup (mkState [loadTaskDef]) c1Input {}).1
      [⟨0, some (.str "ra"), []⟩, ⟨0, some (.str "rb"), []⟩]).2.1 →
      (runSteps (setup (mkState [loadTaskDef]) c1Input {}).1
        [⟨0, some (.str "ra"), []⟩, ⟨0, some (.str "rb"), []⟩]).1.tasks = []) ∧
    List.Sorted (· ≤ ·) (progressList (runSteps
      (setup (mkState [loadTaskDef]) c1Input {}).1
      [⟨0, some (.str "ra"), []⟩, ⟨0, some (.str "rb"), []⟩]).2.1) := by
  have h := c1_progress_monotone_no_admission
    (setup (mkState [loadTaskDef]) c1Input {}).1
    [⟨0, some (.str "ra"), []⟩, ⟨0, some (.str "rb"), []⟩] rfl
  refine ⟨h.1, h.2 rfl ?_ ?_⟩
  · intro d hdm
    rcases List.mem_singleton.1 hdm with rfl
    rfl
  · intro st hst
    rcases List.mem_cons.1 hst with rfl | hst
    · rfl
    · rcases List.mem_singleton.1 hst with rfl
      rfl

/-- A concrete serial batch: one `RUNNING` task, one `WAITING` task. -/
def c7State : AState :=
  { defs := [loadTaskDef]
    tasks := [⟨some "a", false, .running, .obj [("src", .str "a.png")]⟩,
              ⟨some "b", false, .waiting, .obj [("src", .str "b.png")]⟩]
    results := .obj []
    mode := .map
    startAll := false
    cacheAll := false
    typeD := none
    running := true
    numLoaded := 0
    total := 2 }

/-- C7 witness: completing the single `RUNNING` task of a concrete
serial batch (which then serially dispatches the next task) leaves at
most one task `RUNNING`. -/
theorem c7_serial_at_most_one_running_witness :
    countRunning (taskDone c7State 0 (some (.str "ra")) []).state.tasks ≤ 1 := by
  exact c7_serial_at_most_one_running.2.2 c7State 0
    ⟨some "a", false, .running, .obj [("src", .str "a.png")]⟩ (some (.str "ra")) []
    rfl (by decide) rfl rfl

/-- The concrete two-task MAP batch used to witness the C2 theorem. -/
def c2State : AState :=
  { defs := [loadTaskDef]
    tasks := [⟨some "a", false, .running, .obj [("src", .str "a.png")]⟩,
              ⟨some "b", false, .running, .obj [("src", .str "b.png")]⟩]
    results := .obj []
    mode := .map
    startAll := true
    cacheAll := false
    typeD := none
    running := true
    numLoaded := 0
    total := 2 }

/-- C2 witness: in the concrete MAP batch, the first task's completion
appending one id-less descriptor is fatal, nothing crashes, the mode
stays MAP and the container holds exactly the folded entry for the
completing task. -/
theorem c2_map_shape_violation_witness :
    (taskDone c2State 0 (some (.str "ra")) [.obj [("src", .str "x.png")]]).fatal = true ∧
    (taskDone c2State 0 (some (.str "ra")) [.obj [("src", .str "x.png")]]).crash = none ∧
    (taskDone c2State 0 (some (.str "ra")) [.obj [("src", .str "x.png")]]).state.mode =
      Mode.map ∧
    (taskDone c2State 0 (some (.str "ra")) [.obj [("src", .str "x.png")]]).state.results =
      Res.obj (setEntry [] (keyOf (some "a")) (.str "ra")) := by
  have h := c2_map_shape_violation c2State 0
    ⟨some "a", false, .running, .obj [("src", .str "a.png")]⟩ (.str "ra")
    [.obj [("src", .str "x.png")]] [] rfl rfl rfl rfl rfl rfl
  exact ⟨h.1, h.2.1, h.2.2.1, h.2.2.2.1⟩

/-- C3 witness: with an earlier registration and a later registration
that both accept the descriptor, resolution selects the later one. -/
theorem c3_lifo_resolution_witness :
    getTaskByAsset (register (register [] ⟨fun a => truthy a⟩) ⟨fun _ => true⟩)
      (JsVal.str "x") = some ⟨fun _ => true⟩ := by
  exact c3_lifo_resolution.2 (register [] ⟨fun a => truthy a⟩) ⟨fun _ => true⟩
    (JsVal.str "x") rfl

end CKF
